import Mathlib

/-!
Verification of the littlemanplus assembler and virtual machine.

The definitions below are a shallow embedding of the Rust sources:
  - `src/lmp-common/src/assembly.rs` (instruction type and codec),
  - `src/lmp-lang/src/parser.rs` (label resolution),
  - `src/littlemanplus/src/interpreter/vm.rs` (virtual machine).

Conventions used throughout:
  - Rust `i64` values are modelled as `Int`; two complement wrap-around is made
    explicit with `wrap64` where the Rust code performs native arithmetic.
  - Rust panics (process aborts) are modelled as `none` of an `Option` result;
    a function that can neither panic nor diverge returns a plain value.
  - The memory capacity `MEMORY_SIZE` is a compile-time constant defined in a
    crate root that only re-exports it; every definition is parameterised over
    that capacity `N` instead, and theorems quantify over `N`.
  - The recursive pointer resolution of the Rust code has no structural
    termination argument (and indeed can diverge), so it is embedded with an
    explicit fuel parameter; `none` from fuel exhaustion marks a computation
    that has not settled with the given fuel.
-/

/-- Two complement wrap-around of an unbounded integer into the `i64` range. -/
def wrap64 (x : Int) : Int := (x + 2 ^ 63) % 2 ^ 64 - 2 ^ 63

/-- Reinterpretation of an `i64` value as a `usize` (the Rust `as usize` cast
on a 64-bit target): reduce modulo `2 ^ 64` and read the result as unsigned. -/
def i64AsUsize (x : Int) : Nat := (x % 2 ^ 64).toNat

/-- Map a fallible function over a list, failing as a whole when any element
fails. This models a Rust iterator `map` whose closure may panic, collected
into a vector: `none` marks the panic. -/
def mapOpt (f : α → Option β) : List α → Option (List β)
  | [] => some []
  | a :: rest =>
    match f a with
    | none => none
    | some b => (mapOpt f rest).map (b :: ·)

/-- Instruction set of the machine, generic over the operand type, mirroring
`enum Instruction<Data>` in `assembly.rs`. -/
inductive Instruction (α : Type) where
  | ADD (a : α)
  | SUB (a : α)
  | STA (a : α)
  | LDA (a : α)
  | BRA (a : α)
  | BRZ (a : α)
  | BRP (a : α)
  | BWN
  | BWA (a : α)
  | BWO (a : α)
  | BWX (a : α)
  | INP
  | OUT
  | HLT
  | DAT (a : α)
  deriving DecidableEq, Repr

/-- Numeric encoding of an instruction into a memory cell, mirroring
`impl Into<i64> for Instruction<i64>` in `assembly.rs`. -/
def encode : Instruction Int → Int
  | .HLT => 1
  | .INP => 901
  | .OUT => 902
  | .BWN => 10000
  | .ADD a => 1000 + a
  | .SUB a => 2000 + a
  | .STA a => 3000 + a
  | .LDA a => 5000 + a
  | .BRA a => 6000 + a
  | .BRZ a => 7000 + a
  | .BRP a => 8000 + a
  | .BWA a => 11000 + a
  | .BWO a => 12000 + a
  | .BWX a => 13000 + a
  | .DAT d => d

/-- Decoding of a memory cell back into an instruction, mirroring
`impl TryFrom<i64> for Instruction<i64>` in `assembly.rs`: fixed codes are
matched first, then the operand bands in ascending order; any other value
fails to decode (`none` models the `Err(())` result). -/
def decode (value : Int) : Option (Instruction Int) :=
  if value = 1 then some .HLT
  else if value = 901 then some .INP
  else if value = 902 then some .OUT
  else if value = 10000 then some .BWN
  else if 1000 ≤ value ∧ value ≤ 1999 then some (.ADD (value - 1000))
  else if 2000 ≤ value ∧ value ≤ 2999 then some (.SUB (value - 2000))
  else if 3000 ≤ value ∧ value ≤ 3999 then some (.STA (value - 3000))
  else if 5000 ≤ value ∧ value ≤ 5999 then some (.LDA (value - 5000))
  else if 6000 ≤ value ∧ value ≤ 6999 then some (.BRA (value - 6000))
  else if 7000 ≤ value ∧ value ≤ 7999 then some (.BRZ (value - 7000))
  else if 8000 ≤ value ∧ value ≤ 8999 then some (.BRP (value - 8000))
  else if 11000 ≤ value ∧ value ≤ 11999 then some (.BWA (value - 11000))
  else if 12000 ≤ value ∧ value ≤ 12999 then some (.BWO (value - 12000))
  else if 13000 ≤ value ∧ value ≤ 13999 then some (.BWX (value - 13000))
  else none

/-- An instruction that owns an encoding band, with its operand inside the
legal band range `[0, 1000)`; `DAT` carries raw data and has no band. -/
def legalBand : Instruction Int → Bool
  | .ADD a => decide (0 ≤ a ∧ a < 1000)
  | .SUB a => decide (0 ≤ a ∧ a < 1000)
  | .STA a => decide (0 ≤ a ∧ a < 1000)
  | .LDA a => decide (0 ≤ a ∧ a < 1000)
  | .BRA a => decide (0 ≤ a ∧ a < 1000)
  | .BRZ a => decide (0 ≤ a ∧ a < 1000)
  | .BRP a => decide (0 ≤ a ∧ a < 1000)
  | .BWA a => decide (0 ≤ a ∧ a < 1000)
  | .BWO a => decide (0 ≤ a ∧ a < 1000)
  | .BWX a => decide (0 ≤ a ∧ a < 1000)
  | .BWN => true
  | .INP => true
  | .OUT => true
  | .HLT => true
  | .DAT _ => false

/-- C1. Codec round-trip: for every instruction variant that has an encoding
(the ten operand-carrying variants and the four fixed codes, `DAT` excluded)
and every operand in the legal band range `[0, 1000)`, decoding the encoded
cell value yields exactly the original instruction. -/
theorem C1_codec_roundtrip (i : Instruction Int) (h : legalBand i = true) :
    decode (encode i) = some i := by
  cases i with
  | DAT a => exact Bool.noConfusion h
  | BWN => decide
  | INP => decide
  | OUT => decide
  | HLT => decide
  | ADD a =>
    simp only [legalBand, decide_eq_true_eq] at h
    simp only [encode]
    unfold decode
    repeat rw [if_neg (by omega)]
    rw [if_pos (by omega)]
    norm_num
  | SUB a =>
    simp only [legalBand, decide_eq_true_eq] at h
    simp only [encode]
    unfold decode
    repeat rw [if_neg (by omega)]
    rw [if_pos (by omega)]
    norm_num
  | STA a =>
    simp only [legalBand, decide_eq_true_eq] at h
    simp only [encode]
    unfold decode
    repeat rw [if_neg (by omega)]
    rw [if_pos (by omega)]
    norm_num
  | LDA a =>
    simp only [legalBand, decide_eq_true_eq] at h
    simp only [encode]
    unfold decode
    repeat rw [if_neg (by omega)]
    rw [if_pos (by omega)]
    norm_num
  | BRA a =>
    simp only [legalBand, decide_eq_true_eq] at h
    simp only [encode]
    unfold decode
    repeat rw [if_neg (by omega)]
    rw [if_pos (by omega)]
    norm_num
  | BRZ a =>
    simp only [legalBand, decide_eq_true_eq] at h
    simp only [encode]
    unfold decode
    repeat rw [if_neg (by omega)]
    rw [if_pos (by omega)]
    norm_num
  | BRP a =>
    simp only [legalBand, decide_eq_true_eq] at h
    simp only [encode]
    unfold decode
    repeat rw [if_neg (by omega)]
    rw [if_pos (by omega)]
    norm_num
  | BWA a =>
    simp only [legalBand, decide_eq_true_eq] at h
    simp only [encode]
    unfold decode
    repeat rw [if_neg (by omega)]
    rw [if_pos (by omega)]
    norm_num
  | BWO a =>
    simp only [legalBand, decide_eq_true_eq] at h
    simp only [encode]
    unfold decode
    repeat rw [if_neg (by omega)]
    rw [if_pos (by omega)]
    norm_num
  | BWX a =>
    simp only [legalBand, decide_eq_true_eq] at h
    simp only [encode]
    unfold decode
    repeat rw [if_neg (by omega)]
    rw [if_pos (by omega)]
    norm_num

/-- Witness for C1 at the concrete operand-carrying instruction `ADD 7`. -/
theorem C1_codec_roundtrip_witness :
    legalBand (Instruction.ADD 7) = true ∧
      decode (encode (Instruction.ADD 7)) = some (Instruction.ADD 7) :=
  ⟨by decide, C1_codec_roundtrip (Instruction.ADD 7) (by decide)⟩

/-- Operand of an instruction in the unprocessed AST, mirroring
`enum NodeInstructionData` in `parser.rs`: a pointer-prefixed identifier, a
plain label identifier, or a numeric literal. -/
inductive NodeInstructionData where
  | Pointer (s : String)
  | Label (s : String)
  | Num (n : Int)
  deriving DecidableEq, Repr

/-- Node in the AST, mirroring `struct Node` in `parser.rs`: an optional line
label plus one instruction with a still-symbolic operand. -/
structure Node where
  label : Option String
  instruction : Instruction NodeInstructionData
  deriving DecidableEq, Repr

/-- First pass of `resolve_labels` in `parser.rs`: iterate over the
enumerated AST inserting each line label with its zero-based position into a
hash map, a later insertion overwriting an earlier one. The hash map is
modelled as its lookup function after all insertions, so the recursion
prefers an address found in the remaining (later) lines. -/
def buildLabels : List Node → Nat → String → Option Nat
  | [], _, _ => none
  | n :: rest, addr, s =>
    match buildLabels rest (addr + 1) s with
    | some a => some a
    | none =>
      match n.label with
      | some l => if s = l then some addr else none
      | none => none

/-- Lookup of a label over the finished first pass of `resolve_labels`. -/
def lookupLabel (ast : List Node) (s : String) : Option Nat :=
  buildLabels ast 0 s

/-- Resolution of one symbolic operand in the second pass of
`resolve_labels` in `parser.rs`: a numeric literal stands; a label becomes
its address; a pointer becomes its label address plus the memory capacity.
A lookup failure models the process-aborting `expect` of the Rust code. -/
def resolveData (lookup : String → Option Nat) (N : Nat) :
    NodeInstructionData → Option Int
  | .Num n => some n
  | .Label l => (lookup l).map (fun a => Int.ofNat a)
  | .Pointer p => (lookup p).map (fun a => Int.ofNat (a + N))

/-- Resolution of one AST instruction in the second pass of `resolve_labels`
in `parser.rs` (the `label_to_addr` macro): the ten operand-carrying
mnemonics resolve their operand, `DAT` keeps its numeric payload, the fixed
codes pass through, and every other combination is the process-aborting
catch-all `panic`, modelled as `none`. -/
def resolveNode (lookup : String → Option Nat) (N : Nat) :
    Instruction NodeInstructionData → Option (Instruction Int)
  | .ADD d => (resolveData lookup N d).map Instruction.ADD
  | .SUB d => (resolveData lookup N d).map Instruction.SUB
  | .STA d => (resolveData lookup N d).map Instruction.STA
  | .LDA d => (resolveData lookup N d).map Instruction.LDA
  | .BRA d => (resolveData lookup N d).map Instruction.BRA
  | .BRZ d => (resolveData lookup N d).map Instruction.BRZ
  | .BRP d => (resolveData lookup N d).map Instruction.BRP
  | .BWA d => (resolveData lookup N d).map Instruction.BWA
  | .BWO d => (resolveData lookup N d).map Instruction.BWO
  | .BWX d => (resolveData lookup N d).map Instruction.BWX
  | .DAT d =>
    match d with
    | .Num n => some (.DAT n)
    | _ => none
  | .BWN => some .BWN
  | .INP => some .INP
  | .OUT => some .OUT
  | .HLT => some .HLT

/-- Label resolution over a parsed AST, mirroring `resolve_labels` in
`parser.rs`: build the label map, then rewrite every node. The Rust function
returns `Ok` on every path it completes; an unresolved label makes it panic
instead, modelled as `none`. -/
def resolve_labels (N : Nat) (ast : List Node) : Option (List (Instruction Int)) :=
  mapOpt (fun node => resolveNode (lookupLabel ast) N node.instruction) ast

/-- The label identifier referenced by an instruction operand, whether plain
or pointer-prefixed, if any. -/
def refsLabel : Instruction NodeInstructionData → Option String
  | .ADD (.Label l) => some l
  | .ADD (.Pointer p) => some p
  | .SUB (.Label l) => some l
  | .SUB (.Pointer p) => some p
  | .STA (.Label l) => some l
  | .STA (.Pointer p) => some p
  | .LDA (.Label l) => some l
  | .LDA (.Pointer p) => some p
  | .BRA (.Label l) => some l
  | .BRA (.Pointer p) => some p
  | .BRZ (.Label l) => some l
  | .BRZ (.Pointer p) => some p
  | .BRP (.Label l) => some l
  | .BRP (.Pointer p) => some p
  | .BWA (.Label l) => some l
  | .BWA (.Pointer p) => some p
  | .BWO (.Label l) => some l
  | .BWO (.Pointer p) => some p
  | .BWX (.Label l) => some l
  | .BWX (.Pointer p) => some p
  | _ => none

/-- Specification-side resolution of one operand, written from the claim: a
numeric literal stands, a plain label operand is rewritten to the address the
label map gives that label, and a pointer operand to that address plus the
memory capacity. -/
def dataResolvesAs (lookup : String → Option Nat) (N : Nat) :
    NodeInstructionData → Int → Prop
  | .Num n, v => v = n
  | .Label l, v => ∃ a, lookup l = some a ∧ v = (a : Int)
  | .Pointer p, v => ∃ a, lookup p = some a ∧ v = (a : Int) + (N : Int)

/-- Specification-side resolution of one AST instruction, written from the
claim: the mnemonic is preserved and the operand resolves per
`dataResolvesAs`; `DAT` keeps its payload and fixed codes pass through. -/
def nodeResolvesAs (lookup : String → Option Nat) (N : Nat) :
    Instruction NodeInstructionData → Instruction Int → Prop
  | .ADD d, .ADD v => dataResolvesAs lookup N d v
  | .SUB d, .SUB v => dataResolvesAs lookup N d v
  | .STA d, .STA v => dataResolvesAs lookup N d v
  | .LDA d, .LDA v => dataResolvesAs lookup N d v
  | .BRA d, .BRA v => dataResolvesAs lookup N d v
  | .BRZ d, .BRZ v => dataResolvesAs lookup N d v
  | .BRP d, .BRP v => dataResolvesAs lookup N d v
  | .BWA d, .BWA v => dataResolvesAs lookup N d v
  | .BWO d, .BWO v => dataResolvesAs lookup N d v
  | .BWX d, .BWX v => dataResolvesAs lookup N d v
  | .DAT (.Num n), .DAT v => v = n
  | .BWN, .BWN => True
  | .INP, .INP => True
  | .OUT, .OUT => True
  | .HLT, .HLT => True
  | _, _ => False

/-- Result of one VM cycle, mirroring `enum VirtualMachineStep` in `vm.rs`. -/
inductive VirtualMachineStep where
  | Advanced
  | Output (v : Int)
  | InputRequired
  | Halted
  deriving DecidableEq, Repr

/-- Structured compile errors of the VM, mirroring `enum VirtualMachineError`
in `vm.rs`. -/
inductive VirtualMachineError where
  | CompilerError
  | MemoryFull
  deriving DecidableEq, Repr

/-- State of the virtual machine, mirroring `struct VirtualMachine` in
`vm.rs`. The memory array of `MEMORY_SIZE` cells of `i64` is a list of
integers whose length equals the capacity parameter `N` of the operations. -/
structure VirtualMachine where
  program_counter : Nat
  accumulator : Int
  memory : List Int
  halted : Bool
  input_buffer : Option Int
  cycles : Int
  accessing : Nat
  deriving DecidableEq, Repr

/-- Settled outcome of pointer resolution: a direct location, or the
process-aborting panic on an out-of-range pointer or memory index. -/
inductive PtrLoc where
  | ok (loc : Nat)
  | fault
  deriving DecidableEq, Repr

/-- Recursive pointer resolution, mirroring `VirtualMachine::ptr_to_loc` in
`vm.rs`: cast the `i64` to `usize`; panic at or above twice the capacity;
strictly above the capacity, read the cell at `loc - N` and recurse on its
value; otherwise the location is direct. The Rust recursion has no bound, so
it takes a fuel argument here: `none` means the computation has not settled
within the given fuel (with enough fuel on a terminating chain the result is
`some`, and on a cyclic chain it is `none` for every fuel). -/
def ptr_to_loc (N : Nat) (mem : List Int) : Nat → Int → Option PtrLoc
  | 0, _ => none
  | fuel + 1, ptr =>
    let loc := i64AsUsize ptr
    if N * 2 ≤ loc then some .fault
    else if N < loc then
      match mem[loc - N]? with
      | none => some .fault
      | some d => ptr_to_loc N mem fuel d
    else some (.ok loc)

/-- Bounds-checked memory write, mirroring `VirtualMachine::write` in
`vm.rs`: a location at or beyond the capacity is a panic. -/
def writeCell (N : Nat) (mem : List Int) (loc : Nat) (d : Int) : Option (List Int) :=
  if N ≤ loc then none else some (mem.set loc d)

/-- Pointer-following memory read, mirroring `VirtualMachine::ptr_get` in
`vm.rs`: resolve the pointer, then index the memory array (an index at or
beyond its length is a panic). Returns the cell value and the resolved
location recorded into `accessing`. -/
def ptr_get (N fuel : Nat) (mem : List Int) (ptr : Int) : Option (Int × Nat) :=
  match ptr_to_loc N mem fuel ptr with
  | some (.ok loc) =>
    match mem[loc]? with
    | some d => some (d, loc)
    | none => none
  | _ => none

/-- Pointer-following memory write, mirroring `VirtualMachine::ptr_write` in
`vm.rs`. Returns the new memory and the resolved location. -/
def ptr_write (N fuel : Nat) (mem : List Int) (ptr : Int) (d : Int) :
    Option (List Int × Nat) :=
  match ptr_to_loc N mem fuel ptr with
  | some (.ok loc) =>
    match writeCell N mem loc d with
    | some m => some (m, loc)
    | none => none
  | _ => none

/-- Branch-target computation, mirroring `VirtualMachine::branch` in `vm.rs`:
`try_into::<usize>` panics on a negative value, and a target at or beyond the
capacity panics explicitly. Panics are `none`. -/
def branch (N : Nat) (ptr : Int) : Option Nat :=
  if ptr < 0 then none
  else if (N : Int) ≤ ptr then none
  else some ptr.toNat

/-- Buffering one pending input value, mirroring `VirtualMachine::input` in
`vm.rs`: the new value overwrites any unconsumed one. -/
def input (vm : VirtualMachine) (v : Int) : VirtualMachine :=
  { vm with input_buffer := some v }

/-- State reset, mirroring `VirtualMachine::reset` in `vm.rs`: it does
nothing unless the VM is halted, and it does not clear the halted flag. -/
def reset (N : Nat) (vm : VirtualMachine) : VirtualMachine :=
  if !vm.halted then vm
  else
    { vm with
      memory := List.replicate N 0
      cycles := 0
      accessing := 0
      accumulator := 0
      program_counter := 0
      input_buffer := none }

/-- First loading pass of `VirtualMachine::compile` in `vm.rs`: walk the
compiled program writing only the `DAT` payloads at their positions. -/
def datPass (N : Nat) : List (Instruction Int) → Nat → List Int → Option (List Int)
  | [], _, mem => some mem
  | i :: rest, counter, mem =>
    match i with
    | .DAT d =>
      match writeCell N mem counter d with
      | some m => datPass N rest (counter + 1) m
      | none => none
    | _ => datPass N rest (counter + 1) mem

/-- Second loading pass of `VirtualMachine::compile` in `vm.rs`: write the
encoding of every instruction at its position. -/
def instrPass (N : Nat) : List (Instruction Int) → Nat → List Int → Option (List Int)
  | [], _, mem => some mem
  | i :: rest, counter, mem =>
    match writeCell N mem counter (encode i) with
    | some m => instrPass N rest (counter + 1) m
    | none => none

/-- Program loading, mirroring `VirtualMachine::compile` in `vm.rs` after a
successful `assemble` call (the claims quantify over source text that
assembles successfully, so the compiled instruction list is the argument
here; a failed parse is the `CompilerError` early return). An oversized
program is the `MemoryFull` early return; then the conditional `reset`, the
two loading passes, and the halted flag is cleared. -/
def compile (N : Nat) (compiled : List (Instruction Int)) (vm : VirtualMachine) :
    Option (Except VirtualMachineError VirtualMachine) :=
  if N < compiled.length then some (.error .MemoryFull)
  else
    let vm1 := reset N vm
    match datPass N compiled 0 vm1.memory with
    | none => none
    | some m1 =>
      match instrPass N compiled 0 m1 with
      | none => none
      | some m2 => some (.ok { vm1 with memory := m2, halted := false })

/-- One execution cycle, mirroring `VirtualMachine::step` in `vm.rs`: the
halted early return, the cycle-counter increment, the run-off-the-end halt,
fetch, decode (an undecodable cell is skipped), and the execute arms. The
fuel is threaded into pointer resolution; `none` is a cycle that does not
return normally (a panic, or pointer resolution unsettled within the fuel).
The accumulator wraps per two complement `i64` arithmetic. -/
def step (N fuel : Nat) (vm : VirtualMachine) :
    Option (VirtualMachineStep × VirtualMachine) :=
  if vm.halted then some (.Halted, vm)
  else
    let vm := { vm with cycles := vm.cycles + 1 }
    if N ≤ vm.program_counter then some (.Halted, { vm with halted := true })
    else
      match vm.memory[vm.program_counter]? with
      | none => none
      | some cell =>
        match decode cell with
        | none => some (.Advanced, { vm with program_counter := vm.program_counter + 1 })
        | some instr =>
          match instr with
          | .ADD addr =>
            match ptr_get N fuel vm.memory addr with
            | none => none
            | some (d, loc) =>
              some (.Advanced,
                { vm with
                  accumulator := wrap64 (vm.accumulator + d)
                  program_counter := vm.program_counter + 1
                  accessing := loc })
          | .SUB addr =>
            match ptr_get N fuel vm.memory addr with
            | none => none
            | some (d, loc) =>
              some (.Advanced,
                { vm with
                  accumulator := wrap64 (vm.accumulator - d)
                  program_counter := vm.program_counter + 1
                  accessing := loc })
          | .STA addr =>
            match ptr_write N fuel vm.memory addr vm.accumulator with
            | none => none
            | some (m, loc) =>
              some (.Advanced,
                { vm with
                  memory := m
                  program_counter := vm.program_counter + 1
                  accessing := loc })
          | .LDA addr =>
            match ptr_get N fuel vm.memory addr with
            | none => none
            | some (d, loc) =>
              some (.Advanced,
                { vm with
                  accumulator := d
                  program_counter := vm.program_counter + 1
                  accessing := loc })
          | .BRA addr =>
            match branch N addr with
            | none => none
            | some p => some (.Advanced, { vm with program_counter := p })
          | .BRZ addr =>
            if vm.accumulator = (0 : Int) then
              match branch N addr with
              | none => none
              | some p => some (.Advanced, { vm with program_counter := p })
            else
              some (.Advanced, { vm with program_counter := vm.program_counter + 1 })
          | .BRP addr =>
            if (0 : Int) ≤ vm.accumulator then
              match branch N addr with
              | none => none
              | some p => some (.Advanced, { vm with program_counter := p })
            else
              some (.Advanced, { vm with program_counter := vm.program_counter + 1 })
          | .BWN =>
            some (.Advanced,
              { vm with
                accumulator := -vm.accumulator - 1
                program_counter := vm.program_counter + 1 })
          | .BWA addr =>
            match ptr_get N fuel vm.memory addr with
            | none => none
            | some (d, loc) =>
              some (.Advanced,
                { vm with
                  accumulator := Int.land vm.accumulator d
                  program_counter := vm.program_counter + 1
                  accessing := loc })
          | .BWO addr =>
            match ptr_get N fuel vm.memory addr with
            | none => none
            | some (d, loc) =>
              some (.Advanced,
                { vm with
                  accumulator := Int.lor vm.accumulator d
                  program_counter := vm.program_counter + 1
                  accessing := loc })
          | .BWX addr =>
            match ptr_get N fuel vm.memory addr with
            | none => none
            | some (d, loc) =>
              some (.Advanced,
                { vm with
                  accumulator := Int.xor vm.accumulator d
                  program_counter := vm.program_counter + 1
                  accessing := loc })
          | .INP =>
            match vm.input_buffer with
            | some v =>
              some (.Advanced,
                { vm with
                  accumulator := v
                  program_counter := vm.program_counter + 1
                  input_buffer := none })
            | none => some (.InputRequired, vm)
          | .OUT =>
            some (.Output vm.accumulator, { vm with program_counter := vm.program_counter + 1 })
          | .HLT => some (.Halted, { vm with halted := true })
          | .DAT _ => none

/-- A cell value whose `usize` cast lands strictly between the capacity and
twice the capacity, i.e. an indirection marker that resolution follows. -/
def isMarker (N : Nat) (p : Int) : Bool :=
  decide (N < i64AsUsize p ∧ i64AsUsize p < N * 2)

/-- One step of marker following: an indirection marker is replaced by the
value of the cell it designates; any other value is left in place. -/
def followPtr (N : Nat) (mem : List Int) (p : Int) : Int :=
  if isMarker N p then mem.getD (i64AsUsize p - N) 0 else p

/-- Termination of pointer resolution at a given memory and pointer: some
fuel makes the recursion settle (normally or in the bounds panic). -/
def PtrTerminates (N : Nat) (mem : List Int) (ptr : Int) : Prop :=
  ∃ fuel, (ptr_to_loc N mem fuel ptr).isSome = true

/-- C6. Halt idempotence: with the halted flag set, `step` is a pure no-op
returning `Halted` again; no component of the state changes, in particular
the cycle counter does not increase further. Together with the fact that
both halting paths of `step` set the flag, this covers every call after the
first `Halted` result. -/
theorem C6_halt_idempotent (N fuel : Nat) (vm : VirtualMachine)
    (h : vm.halted = true) :
    step N fuel vm = some (.Halted, vm) := by
  unfold step
  rw [if_pos h]

/-- Witness for C6 at a concrete halted state. -/
theorem C6_halt_idempotent_witness :
    step 2 1 ⟨0, 5, [901, 902], true, none, 3, 0⟩ =
      some (.Halted, ⟨0, 5, [901, 902], true, none, 3, 0⟩) :=
  C6_halt_idempotent 2 1 ⟨0, 5, [901, 902], true, none, 3, 0⟩ rfl

/-- C9. Decode failure during fetch is not fatal: when the fetched cell
decodes to no known instruction, the cycle is skipped with no register or
memory effect from the cell, the program counter advances by exactly one,
and the result is `Advanced` (the unconditional cycle-counter increment of
`step` still happens, as on every non-halted call). -/
theorem C9_decode_failure_skips (N fuel : Nat) (vm : VirtualMachine) (c : Int)
    (hh : vm.halted = false) (hpc : vm.program_counter < N)
    (hc : vm.memory[vm.program_counter]? = some c)
    (hdec : decode c = none) :
    step N fuel vm = some (.Advanced,
      { vm with program_counter := vm.program_counter + 1, cycles := vm.cycles + 1 }) := by
  unfold step
  rw [if_neg (by simp [hh])]
  simp only
  rw [if_neg (by simpa using Nat.not_le.mpr hpc)]
  simp [hc, hdec]

/-- Witness for C9 at a concrete state whose fetched cell value 4242 lies in
no encoding band. -/
theorem C9_decode_failure_skips_witness :
    step 1 1 ⟨0, 9, [4242], false, none, 0, 0⟩ =
      some (.Advanced, ⟨1, 9, [4242], false, none, 1, 0⟩) :=
  C9_decode_failure_skips 1 1 ⟨0, 9, [4242], false, none, 0, 0⟩ 4242
    rfl (by decide) rfl (by decide)

/-- Concrete state positioned at an `INP` cell with an empty input buffer
and a cycle counter of zero. -/
def c3vm : VirtualMachine := ⟨0, 0, [901, 0], false, none, 0, 0⟩

/-- C3, counterexample to the claim as stated: stepping a state positioned
at `INP` with no buffered input does return `InputRequired`, but it does not
leave the entire state unchanged — the cycle counter, 0 in `c3vm`, has been
incremented to 1 in the returned state, because `step` increments it before
decoding on every non-halted call. -/
theorem C3_inp_unchanged_counterexample :
    step 2 1 c3vm ≠ some (.InputRequired, c3vm) := by
  decide

/-- C3, amended: stepping a non-halted state positioned at `INP` with an
empty input buffer returns `InputRequired` and leaves every state component
unchanged except the cycle counter, which increments by one per call (so
repeated calls return `InputRequired` indefinitely, the hypotheses being
preserved); after `input v`, the next `step` consumes exactly that buffered
value, sets the accumulator to `v`, empties the buffer, and advances the
program counter by one. -/
theorem C3_inp_suspend_resume (N fuel : Nat) (vm : VirtualMachine) (c : Int)
    (hh : vm.halted = false) (hpc : vm.program_counter < N)
    (hc : vm.memory[vm.program_counter]? = some c)
    (hdec : decode c = some .INP)
    (hbuf : vm.input_buffer = none) :
    step N fuel vm = some (.InputRequired, { vm with cycles := vm.cycles + 1 }) ∧
      ∀ v : Int, step N fuel (input vm v) = some (.Advanced,
        { vm with
          accumulator := v
          program_counter := vm.program_counter + 1
          cycles := vm.cycles + 1
          input_buffer := none }) := by
  constructor
  · unfold step
    rw [if_neg (by simp [hh])]
    simp only
    rw [if_neg (by simpa using Nat.not_le.mpr hpc)]
    simp [hc, hdec, hbuf]
  · intro v
    unfold step input
    rw [if_neg (by simp [hh])]
    simp only
    rw [if_neg (by simpa using Nat.not_le.mpr hpc)]
    simp [hc, hdec]

/-- Witness for the amended C3 at `c3vm`, resuming with the value 42. -/
theorem C3_inp_suspend_resume_witness :
    step 2 1 c3vm = some (.InputRequired, { c3vm with cycles := 1 }) ∧
      step 2 1 (input c3vm 42) = some (.Advanced,
        { c3vm with
          accumulator := 42
          program_counter := 1
          cycles := 1
          input_buffer := none }) :=
  ⟨(C3_inp_suspend_resume 2 1 c3vm 901 rfl (by decide) rfl (by decide) rfl).1,
    (C3_inp_suspend_resume 2 1 c3vm 901 rfl (by decide) rfl (by decide) rfl).2 42⟩

/-- Concrete state whose fetched cell decodes to `BRA 2` with capacity 2:
the branch target equals the memory capacity. -/
def c2vm : VirtualMachine := ⟨0, 0, [6002, 0], false, none, 0, 0⟩

/-- C2, counterexample to the claim as stated: executing a `BRA` whose
target is at the memory capacity does not yield an observable `Fault`
result — `VirtualMachineStep` has no such variant — but aborts: the bounds
check in `branch` panics, modelled as `none` from `step`. -/
theorem C2_branch_fault_counterexample :
    decode 6002 = some (Instruction.BRA 2) ∧ step 2 1 c2vm = none := by
  decide

/-- C2, amended: executing a branch instruction (`BRA`, or a taken
`BRZ`/`BRP`) whose target address is at or beyond the memory capacity makes
`step` panic and abort the host process (modelled as `none`); there is no
`Fault` variant and no graceful terminal state. -/
theorem C2_branch_oob_panics (N fuel : Nat) (vm : VirtualMachine) (c a : Int)
    (hh : vm.halted = false) (hpc : vm.program_counter < N)
    (hc : vm.memory[vm.program_counter]? = some c)
    (hdec : decode c = some (.BRA a) ∨
      (decode c = some (.BRZ a) ∧ vm.accumulator = 0) ∨
      (decode c = some (.BRP a) ∧ 0 ≤ vm.accumulator))
    (ha : (N : Int) ≤ a) :
    step N fuel vm = none := by
  have hbr : branch N a = none := by
    unfold branch
    rw [if_neg (by omega), if_pos ha]
  rcases hdec with h | ⟨h, hacc⟩ | ⟨h, hacc⟩
  · unfold step
    rw [if_neg (by simp [hh])]
    simp only
    rw [if_neg (by simpa using Nat.not_le.mpr hpc)]
    simp [hc, h, hbr]
  · unfold step
    rw [if_neg (by simp [hh])]
    simp only
    rw [if_neg (by simpa using Nat.not_le.mpr hpc)]
    simp [hc, h, hacc, hbr]
  · unfold step
    rw [if_neg (by simp [hh])]
    simp only
    rw [if_neg (by simpa using Nat.not_le.mpr hpc)]
    simp [hc, h, hacc, hbr]

/-- Witness for the amended C2 at a concrete state taking a `BRZ` to a
target beyond the capacity. -/
theorem C2_branch_oob_panics_witness :
    step 3 1 ⟨0, 0, [7005, 0, 0], false, none, 0, 0⟩ = none :=
  C2_branch_oob_panics 3 1 ⟨0, 0, [7005, 0, 0], false, none, 0, 0⟩ 7005 5
    rfl (by decide) rfl (Or.inr (Or.inl ⟨by decide, rfl⟩)) (by decide)

/-- One-level unfolding equation of `ptr_to_loc` at positive fuel. -/
theorem ptr_to_loc_succ (N : Nat) (mem : List Int) (fuel : Nat) (ptr : Int) :
    ptr_to_loc N mem (fuel + 1) ptr =
      (if N * 2 ≤ i64AsUsize ptr then some .fault
       else if N < i64AsUsize ptr then
         match mem[i64AsUsize ptr - N]? with
         | none => some .fault
         | some d => ptr_to_loc N mem fuel d
       else some (.ok (i64AsUsize ptr))) := rfl

/-- Memory of capacity 100 whose cell 0 holds the direct address 2. -/
def c4mem : List Int := (List.replicate 100 0).set 0 2

/-- C4, counterexample to the claim as stated: with capacity `N = 100`, the
operand exactly `N` (the `k = 0` marker the claim includes) is not resolved
through cell 0 — the strict `loc > MEMORY_SIZE` comparison in `ptr_to_loc`
treats it as a direct address and returns location 100 itself, instead of
recursing on the value 2 stored in cell 0 (which would resolve to 2). -/
theorem C4_marker_zero_counterexample :
    c4mem[0]? = some 2 ∧
      ptr_to_loc 100 c4mem 4 100 = some (.ok 100) ∧
      ptr_to_loc 100 c4mem 3 2 = some (.ok 2) := by
  decide

/-- C4, amended: an operand `N + k` is an indirection marker exactly for
`1 ≤ k ≤ N - 1`: resolution reads the real address from the current value of
cell `k` and recurses on it. Operand exactly `N` (the excluded `k = 0`) falls
through the strict comparison and is returned as a direct, out-of-range
address. -/
theorem C4_marker_resolution (N fuel k : Nat) (mem : List Int) (d : Int)
    (hk1 : 1 ≤ k) (hk2 : k < N) (hN : N * 2 < 2 ^ 64)
    (hd : mem[k]? = some d) :
    ptr_to_loc N mem (fuel + 1) ((N : Int) + (k : Int)) =
      ptr_to_loc N mem fuel d := by
  have hcast : i64AsUsize ((N : Int) + (k : Int)) = N + k := by
    unfold i64AsUsize
    omega
  rw [ptr_to_loc_succ]
  simp only [hcast]
  rw [if_neg (by omega), if_pos (by omega)]
  have hsub : N + k - N = k := by omega
  rw [hsub, hd]

/-- Witness for the amended C4: with capacity 100, operand 105 resolves
through cell 5. -/
theorem C4_marker_resolution_witness :
    c4mem[5]? = some 0 ∧
      ptr_to_loc 100 c4mem 2 105 = ptr_to_loc 100 c4mem 1 0 :=
  ⟨by decide,
    C4_marker_resolution 100 1 5 c4mem 0 (by decide) (by decide) (by norm_num)
      (by decide)⟩

/-- Memory of capacity 100 whose cell 1 holds the indirection marker 101
pointing back at itself. -/
def cycMem : List Int := (List.replicate 100 0).set 1 101

/-- Pointer resolution of the self-referential marker 101 over `cycMem`
never settles: every recursion level reads 101 back out of cell 1. -/
theorem cycMem_loops (fuel : Nat) : ptr_to_loc 100 cycMem fuel 101 = none := by
  induction fuel with
  | zero => rfl
  | succ n ih =>
    have hfix : i64AsUsize 101 = 101 := by decide
    have hcell : cycMem[(1 : Nat)]? = some 101 := by decide
    have hstep : ptr_to_loc 100 cycMem (n + 1) 101 = ptr_to_loc 100 cycMem n 101 := by
      rw [ptr_to_loc_succ]
      simp only [hfix]
      rw [if_neg (by decide), if_pos (by decide)]
      norm_num [hcell]
    rw [hstep, ih]

/-- C10, counterexample to the claim as stated: the memory `cycMem` holds a
marker chain that cycles (cell 1 holds 101, the marker designating cell 1),
and on the operand 101 — below twice the capacity — the recursive resolution
of `ptr_to_loc` never terminates: no fuel settles it, so a single `step`
call on an instruction referencing it loops forever. -/
theorem C10_cycle_counterexample : ¬ PtrTerminates 100 cycMem 101 := by
  rintro ⟨fuel, h⟩
  rw [cycMem_loops fuel] at h
  exact Bool.noConfusion h

/-- A pointer value that is not a marker settles within one resolution
level, either as a direct location or as the out-of-range panic. -/
theorem settles_of_not_marker (N : Nat) (mem : List Int) (ptr : Int)
    (hm : isMarker N ptr = false) :
    (ptr_to_loc N mem 1 ptr).isSome = true := by
  have hm' : ¬(N < i64AsUsize ptr ∧ i64AsUsize ptr < N * 2) := by
    simpa [isMarker] using hm
  rw [show (1 : Nat) = 0 + 1 from rfl, ptr_to_loc_succ]
  by_cases h1 : N * 2 ≤ i64AsUsize ptr
  · rw [if_pos h1]
    rfl
  · rw [if_neg h1, if_neg (by omega)]
    rfl

/-- C10, amended: pointer resolution terminates exactly on the operands
whose marker chain escapes the marker band after finitely many
marker-following steps; in particular every acyclic chain terminates, while
a chain that cycles (as in `cycMem`) makes `ptr_to_loc` recurse forever. -/
theorem C10_terminates_of_escape (N : Nat) (mem : List Int) (ptr : Int)
    (hlen : mem.length = N)
    (hesc : ∃ n, isMarker N ((followPtr N mem)^[n] ptr) = false) :
    PtrTerminates N mem ptr := by
  obtain ⟨n, hn⟩ := hesc
  induction n generalizing ptr with
  | zero =>
    rw [Function.iterate_zero_apply] at hn
    exact ⟨1, settles_of_not_marker N mem ptr hn⟩
  | succ n ih =>
    by_cases hm : isMarker N ptr = true
    · have hloc : N < i64AsUsize ptr ∧ i64AsUsize ptr < N * 2 := by
        simpa [isMarker] using hm
      have hidx : i64AsUsize ptr - N < mem.length := by omega
      have hv : mem[i64AsUsize ptr - N]? = some mem[i64AsUsize ptr - N] :=
        List.getElem?_eq_getElem hidx
      have hfol : followPtr N mem ptr = mem[i64AsUsize ptr - N] := by
        simp [followPtr, hm, hv]
      have hn' : isMarker N ((followPtr N mem)^[n] (followPtr N mem ptr)) = false := by
        rw [← Function.iterate_succ_apply]
        exact hn
      obtain ⟨fuel, hf⟩ := ih (followPtr N mem ptr) hn'
      refine ⟨fuel + 1, ?_⟩
      rw [ptr_to_loc_succ]
      rw [if_neg (by omega), if_pos (by omega), hv]
      rw [hfol] at hf
      exact hf
    · exact ⟨1, settles_of_not_marker N mem ptr (by simpa using hm)⟩

/-- Witness for the amended C10: over `c4mem`, the marker 150 designates
cell 50, which holds the non-marker 0, so the chain escapes in one step and
resolution settles. -/
theorem C10_terminates_of_escape_witness :
    c4mem.length = 100 ∧ isMarker 100 (followPtr 100 c4mem 150) = false ∧
      PtrTerminates 100 c4mem 150 :=
  ⟨by decide, by decide,
    C10_terminates_of_escape 100 c4mem 150 (by decide)
      ⟨1, by decide⟩⟩

/-- Mapping a fallible function over a list fails whenever it fails on some
member of the list. -/
theorem mapOpt_none_of_mem {α β : Type} {f : α → Option β} {l : List α} {a : α}
    (ha : a ∈ l) (hf : f a = none) : mapOpt f l = none := by
  induction l with
  | nil => cases ha
  | cons x xs ih =>
    rcases List.mem_cons.mp ha with rfl | hmem
    · simp [mapOpt, hf]
    · unfold mapOpt
      cases hfx : f x with
      | none => rfl
      | some b => simp [ih hmem]

/-- A label that no line of the AST defines is absent from the label map,
whatever the starting address of the first pass. -/
theorem buildLabels_eq_none {ast : List Node} {s : String}
    (h : ∀ n ∈ ast, n.label ≠ some s) :
    ∀ addr, buildLabels ast addr s = none := by
  induction ast with
  | nil => intro addr; rfl
  | cons n rest ih =>
    intro addr
    unfold buildLabels
    rw [ih (fun m hm => h m (List.mem_cons_of_mem n hm)) (addr + 1)]
    have hn := h n (List.mem_cons_self n rest)
    cases hl : n.label with
    | none => rfl
    | some l2 =>
      simp only
      rw [if_neg]
      intro he
      exact hn (by rw [hl, he])

/-- Resolution of an instruction whose operand references a label the label
map does not know panics (the `expect` in the `label_to_addr` macro). -/
theorem resolveNode_eq_none {lookup : String → Option Nat} {N : Nat}
    {instr : Instruction NodeInstructionData} {l : String}
    (href : refsLabel instr = some l) (hlk : lookup l = none) :
    resolveNode lookup N instr = none := by
  cases instr with
  | ADD d => cases d <;> simp_all [refsLabel, resolveNode, resolveData]
  | SUB d => cases d <;> simp_all [refsLabel, resolveNode, resolveData]
  | STA d => cases d <;> simp_all [refsLabel, resolveNode, resolveData]
  | LDA d => cases d <;> simp_all [refsLabel, resolveNode, resolveData]
  | BRA d => cases d <;> simp_all [refsLabel, resolveNode, resolveData]
  | BRZ d => cases d <;> simp_all [refsLabel, resolveNode, resolveData]
  | BRP d => cases d <;> simp_all [refsLabel, resolveNode, resolveData]
  | BWA d => cases d <;> simp_all [refsLabel, resolveNode, resolveData]
  | BWO d => cases d <;> simp_all [refsLabel, resolveNode, resolveData]
  | BWX d => cases d <;> simp_all [refsLabel, resolveNode, resolveData]
  | DAT d => cases d <;> simp_all [refsLabel]
  | BWN => simp_all [refsLabel]
  | INP => simp_all [refsLabel]
  | OUT => simp_all [refsLabel]
  | HLT => simp_all [refsLabel]

/-- AST consisting of the single line `ADD foo` with no label definitions. -/
def c5ast : List Node := [⟨none, .ADD (.Label "foo")⟩]

/-- C5, counterexample to the claim as stated: on a program whose `ADD`
operand references the undefined label `foo`, `resolve_labels` does not
return a structured `UnknownLabel` compile error — no such error value
exists, the error type of `assemble` being the unit type produced only by
the grammar — it panics in the `expect` call, aborting the process
(modelled as `none`, distinct from every returned `Result`). -/
theorem C5_unknown_label_counterexample : resolve_labels 100 c5ast = none := by
  decide

/-- C5, amended: when some instruction operand references a label (plain or
pointer-prefixed) that no line of the program defines, `resolve_labels`
panics and aborts the process (`none`) whatever the mnemonic; it does not
return a structured `UnknownLabel` error, and `assemble` has no such error
value — its only structured failure is the unit syntax error of the
grammar. -/
theorem C5_unknown_label_panics (N : Nat) (ast : List Node) (node : Node)
    (l : String) (hmem : node ∈ ast)
    (href : refsLabel node.instruction = some l)
    (hnodef : ∀ n ∈ ast, n.label ≠ some l) :
    resolve_labels N ast = none := by
  apply mapOpt_none_of_mem hmem
  exact resolveNode_eq_none href (buildLabels_eq_none hnodef 0)

/-- Witness for the amended C5: a two-line program whose `STA` operand is
the pointer reference `@bar` while no line is labelled `bar`. -/
theorem C5_unknown_label_panics_witness :
    resolve_labels 7 [⟨some "x", .DAT (.Num 1)⟩, ⟨none, .STA (.Pointer "bar")⟩] = none :=
  C5_unknown_label_panics 7 _ ⟨none, .STA (.Pointer "bar")⟩ "bar"
    (by decide) (by decide) (by decide)

/-- An address produced by the first pass of label resolution is the
zero-based position (offset by the starting address of the walk) of a line
whose label is the looked-up identifier. -/
theorem buildLabels_some {ast : List Node} {s : String} :
    ∀ {addr a : Nat}, buildLabels ast addr s = some a →
      ∃ node, ast[a - addr]? = some node ∧ node.label = some s ∧ addr ≤ a := by
  induction ast with
  | nil =>
    intro addr a h
    exact absurd h (by simp [buildLabels])
  | cons n rest ih =>
    intro addr a h
    unfold buildLabels at h
    split at h
    · rename_i a2 hr
      injection h with ha
      obtain ⟨node, hget, hlab, hle⟩ := ih hr
      refine ⟨node, ?_, hlab, by omega⟩
      have hidx : a - addr = (a2 - (addr + 1)) + 1 := by omega
      rw [hidx, List.getElem?_cons_succ]
      exact hget
    · rename_i hr
      split at h
      · rename_i l2 hl
        split at h
        · rename_i he
          injection h with ha
          have hidx : a - addr = 0 := by omega
          rw [hidx]
          exact ⟨n, by simp, by rw [hl, he], by omega⟩
        · exact absurd h (by simp)
      · exact absurd h (by simp)

/-- Every line label is present in the finished label map. -/
theorem buildLabels_isSome {ast : List Node} {s : String} :
    ∀ {addr i : Nat} {n : Node}, ast[i]? = some n → n.label = some s →
      (buildLabels ast addr s).isSome = true := by
  induction ast with
  | nil =>
    intro addr i n h
    simp at h
  | cons x rest ih =>
    intro addr i n hget hlab
    unfold buildLabels
    cases hr : buildLabels rest (addr + 1) s with
    | some a2 => rfl
    | none =>
      cases i with
      | zero =>
        obtain rfl : x = n := by simpa using hget
        simp [hlab]
      | succ j =>
        have hrec := @ih (addr + 1) j n (by simpa using hget) hlab
        rw [hr] at hrec
        exact absurd hrec (by simp)

/-- Pointwise description of a successful fallible map: the output at every
index is the image of the input at that index. -/
theorem mapOpt_getElem? {α β : Type} {f : α → Option β} :
    ∀ {l : List α} {out : List β}, mapOpt f l = some out →
      ∀ i : Nat, out[i]? = (l[i]?).bind f := by
  intro l
  induction l with
  | nil =>
    intro out h i
    obtain rfl : ([] : List β) = out := by simpa [mapOpt] using h
    simp
  | cons x xs ih =>
    intro out h i
    unfold mapOpt at h
    split at h
    · exact absurd h (by simp)
    · rename_i b hfx
      cases hm : mapOpt f xs with
      | none =>
        rw [hm] at h
        exact absurd h (by simp)
      | some ys =>
        rw [hm] at h
        obtain rfl : b :: ys = out := by simpa using h
        cases i with
        | zero => simp [hfx]
        | succ j => simpa using ih hm j

/-- Soundness of one operand resolution against its specification-side
description. -/
theorem resolveData_sound {lookup : String → Option Nat} {N : Nat}
    {d : NodeInstructionData} {v : Int}
    (h : resolveData lookup N d = some v) : dataResolvesAs lookup N d v := by
  cases d with
  | Num n =>
    simp only [resolveData] at h
    injection h with h
    exact h.symm
  | Label l =>
    simp only [resolveData] at h
    cases hl : lookup l with
    | none => rw [hl] at h; exact absurd h (by simp)
    | some a =>
      rw [hl] at h
      have h2 : some (Int.ofNat a) = some v := h
      injection h2 with h2
      exact ⟨a, hl, h2.symm⟩
  | Pointer p =>
    simp only [resolveData] at h
    cases hl : lookup p with
    | none => rw [hl] at h; exact absurd h (by simp)
    | some a =>
      rw [hl] at h
      have h2 : some (Int.ofNat (a + N)) = some v := h
      injection h2 with h2
      exact ⟨a, hl, by rw [← h2]; rfl⟩

/-- Soundness of one instruction resolution against its specification-side
description. -/
theorem resolveNode_sound {lookup : String → Option Nat} {N : Nat}
    {instr : Instruction NodeInstructionData} {o : Instruction Int}
    (h : resolveNode lookup N instr = some o) :
    nodeResolvesAs lookup N instr o := by
  cases instr with
  | ADD d =>
    simp only [resolveNode] at h
    cases hd : resolveData lookup N d with
    | none => rw [hd] at h; exact absurd h (by simp)
    | some x =>
      rw [hd] at h
      have h2 : some (Instruction.ADD x) = some o := h
      injection h2 with h2
      rw [← h2]
      exact resolveData_sound hd
  | SUB d =>
    simp only [resolveNode] at h
    cases hd : resolveData lookup N d with
    | none => rw [hd] at h; exact absurd h (by simp)
    | some x =>
      rw [hd] at h
      have h2 : some (Instruction.SUB x) = some o := h
      injection h2 with h2
      rw [← h2]
      exact resolveData_sound hd
  | STA d =>
    simp only [resolveNode] at h
    cases hd : resolveData lookup N d with
    | none => rw [hd] at h; exact absurd h (by simp)
    | some x =>
      rw [hd] at h
      have h2 : some (Instruction.STA x) = some o := h
      injection h2 with h2
      rw [← h2]
      exact resolveData_sound hd
  | LDA d =>
    simp only [resolveNode] at h
    cases hd : resolveData lookup N d with
    | none => rw [hd] at h; exact absurd h (by simp)
    | some x =>
      rw [hd] at h
      have h2 : some (Instruction.LDA x) = some o := h
      injection h2 with h2
      rw [← h2]
      exact resolveData_sound hd
  | BRA d =>
    simp only [resolveNode] at h
    cases hd : resolveData lookup N d with
    | none => rw [hd] at h; exact absurd h (by simp)
    | some x =>
      rw [hd] at h
      have h2 : some (Instruction.BRA x) = some o := h
      injection h2 with h2
      rw [← h2]
      exact resolveData_sound hd
  | BRZ d =>
    simp only [resolveNode] at h
    cases hd : resolveData lookup N d with
    | none => rw [hd] at h; exact absurd h (by simp)
    | some x =>
      rw [hd] at h
      have h2 : some (Instruction.BRZ x) = some o := h
      injection h2 with h2
      rw [← h2]
      exact resolveData_sound hd
  | BRP d =>
    simp only [resolveNode] at h
    cases hd : resolveData lookup N d with
    | none => rw [hd] at h; exact absurd h (by simp)
    | some x =>
      rw [hd] at h
      have h2 : some (Instruction.BRP x) = some o := h
      injection h2 with h2
      rw [← h2]
      exact resolveData_sound hd
  | BWA d =>
    simp only [resolveNode] at h
    cases hd : resolveData lookup N d with
    | none => rw [hd] at h; exact absurd h (by simp)
    | some x =>
      rw [hd] at h
      have h2 : some (Instruction.BWA x) = some o := h
      injection h2 with h2
      rw [← h2]
      exact resolveData_sound hd
  | BWO d =>
    simp only [resolveNode] at h
    cases hd : resolveData lookup N d with
    | none => rw [hd] at h; exact absurd h (by simp)
    | some x =>
      rw [hd] at h
      have h2 : some (Instruction.BWO x) = some o := h
      injection h2 with h2
      rw [← h2]
      exact resolveData_sound hd
  | BWX d =>
    simp only [resolveNode] at h
    cases hd : resolveData lookup N d with
    | none => rw [hd] at h; exact absurd h (by simp)
    | some x =>
      rw [hd] at h
      have h2 : some (Instruction.BWX x) = some o := h
      injection h2 with h2
      rw [← h2]
      exact resolveData_sound hd
  | DAT d =>
    cases d with
    | Num n =>
      obtain rfl : Instruction.DAT n = o := by simpa [resolveNode] using h
      rfl
    | Label l => exact absurd h (by simp [resolveNode])
    | Pointer p => exact absurd h (by simp [resolveNode])
  | BWN =>
    obtain rfl : Instruction.BWN = o := by simpa [resolveNode] using h
    trivial
  | INP =>
    obtain rfl : Instruction.INP = o := by simpa [resolveNode] using h
    trivial
  | OUT =>
    obtain rfl : Instruction.OUT = o := by simpa [resolveNode] using h
    trivial
  | HLT =>
    obtain rfl : Instruction.HLT = o := by simpa [resolveNode] using h
    trivial

/-- C8. Label resolution: over every successfully resolved AST, (1) every
address in the label map is the zero-based position of a line carrying that
label (a line labelled with `DAT` or with an ordinary instruction each
occupying one slot), (2) every line label is assigned an address, and (3)
every instruction is rewritten per the claim — a plain label operand to the
address of that label and a pointer operand to that address plus the memory
capacity, numeric operands and operand-less codes passing through. -/
theorem C8_label_resolution (N : Nat) (ast : List Node)
    (out : List (Instruction Int)) (hres : resolve_labels N ast = some out) :
    (∀ (s : String) (a : Nat), lookupLabel ast s = some a →
      ∃ node, ast[a]? = some node ∧ node.label = some s) ∧
    (∀ (i : Nat) (n : Node) (s : String), ast[i]? = some n → n.label = some s →
      (lookupLabel ast s).isSome = true) ∧
    (∀ (i : Nat) (n : Node) (o : Instruction Int), ast[i]? = some n →
      out[i]? = some o →
      nodeResolvesAs (lookupLabel ast) N n.instruction o) := by
  refine ⟨?_, ?_, ?_⟩
  · intro s a h
    obtain ⟨node, hget, hlab, _⟩ := buildLabels_some h
    rw [Nat.sub_zero] at hget
    exact ⟨node, hget, hlab⟩
  · intro i n s hget hlab
    exact buildLabels_isSome hget hlab
  · intro i n o hget hout
    have hpt := mapOpt_getElem? hres i
    rw [hout, hget] at hpt
    exact resolveNode_sound hpt.symm

/-- AST of a two-line program: a labelled `DAT` line and an `ADD` through
the pointer reference `@x`. -/
def c8ast : List Node := [⟨some "x", .DAT (.Num 5)⟩, ⟨none, .ADD (.Pointer "x")⟩]

/-- Witness for C8: with capacity 7, the pointer operand `@x` of the second
line is rewritten to the address 0 of the label `x` plus the capacity. -/
theorem C8_label_resolution_witness :
    resolve_labels 7 c8ast = some [Instruction.DAT 5, Instruction.ADD 7] ∧
      nodeResolvesAs (lookupLabel c8ast) 7
        (Instruction.ADD (NodeInstructionData.Pointer "x")) (Instruction.ADD 7) :=
  ⟨by decide,
    (C8_label_resolution 7 c8ast [Instruction.DAT 5, Instruction.ADD 7]
          (by decide)).2.2 1
      ⟨none, Instruction.ADD (NodeInstructionData.Pointer "x")⟩ (Instruction.ADD 7)
      (by decide) (by decide)⟩

/-- Specification-side description of program loading: write the encoding of
each instruction at consecutive positions over a base memory image. -/
def loadProgMem : List (Instruction Int) → Nat → List Int → List Int
  | [], _, mem => mem
  | i :: rest, counter, mem => loadProgMem rest (counter + 1) (mem.set counter (encode i))

/-- Loading a program preserves the memory length. -/
theorem loadProgMem_length (prog : List (Instruction Int)) :
    ∀ (c : Nat) (mem : List Int), (loadProgMem prog c mem).length = mem.length := by
  induction prog with
  | nil => intro c mem; rfl
  | cons x xs ih =>
    intro c mem
    unfold loadProgMem
    rw [ih]
    simp

/-- Pointwise description of program loading: inside the written window the
cell holds the encoded instruction, outside it the base image shows
through. -/
theorem loadProgMem_getElem? (prog : List (Instruction Int)) :
    ∀ (c : Nat) (mem : List Int), c + prog.length ≤ mem.length → ∀ i : Nat,
      (loadProgMem prog c mem)[i]? =
        if c ≤ i ∧ i < c + prog.length then (prog[i - c]?).map encode
        else mem[i]? := by
  induction prog with
  | nil =>
    intro c mem h i
    unfold loadProgMem
    rw [if_neg (by simp only [List.length_nil]; omega)]
  | cons x xs ih =>
    intro c mem h i
    simp only [List.length_cons] at h ⊢
    unfold loadProgMem
    rw [ih (c + 1) (mem.set c (encode x)) (by simp only [List.length_set]; omega) i]
    by_cases h2 : i = c
    · subst h2
      rw [if_neg (by omega), if_pos (by omega)]
      rw [List.getElem?_set_eq_of_lt _ (by omega)]
      rw [Nat.sub_self]
      simp
    · by_cases h1 : c ≤ i ∧ i < c + (xs.length + 1)
      · rw [if_pos ⟨by omega, by omega⟩, if_pos h1]
        have hidx : i - c = (i - (c + 1)) + 1 := by omega
        rw [hidx, List.getElem?_cons_succ]
      · rw [if_neg (by omega), if_neg h1]
        exact List.getElem?_set_ne (by omega)

/-- The second loading pass succeeds on an in-capacity program over a
full-length memory and computes exactly the loaded image. -/
theorem instrPass_eq (N : Nat) :
    ∀ (prog : List (Instruction Int)) (c : Nat) (mem : List Int),
      c + prog.length ≤ N → mem.length = N →
      instrPass N prog c mem = some (loadProgMem prog c mem) := by
  intro prog
  induction prog with
  | nil => intro c mem h hl; rfl
  | cons x xs ih =>
    intro c mem h hl
    simp only [List.length_cons] at h
    have hw : writeCell N mem c (encode x) = some (mem.set c (encode x)) := by
      unfold writeCell
      rw [if_neg (by omega)]
    unfold instrPass loadProgMem
    rw [hw]
    exact ih (c + 1) (mem.set c (encode x)) (by omega) (by simp [hl])

/-- The first loading pass succeeds on an in-capacity program over a
full-length memory, preserves the length, and leaves every cell at or
beyond the end of the program window untouched. -/
theorem datPass_spec (N : Nat) :
    ∀ (prog : List (Instruction Int)) (c : Nat) (mem : List Int),
      c + prog.length ≤ N → mem.length = N →
      ∃ m1, datPass N prog c mem = some m1 ∧ m1.length = N ∧
        ∀ i : Nat, c + prog.length ≤ i → m1[i]? = mem[i]? := by
  intro prog
  induction prog with
  | nil =>
    intro c mem h hl
    exact ⟨mem, rfl, hl, fun i _ => rfl⟩
  | cons x xs ih =>
    intro c mem h hl
    simp only [List.length_cons] at h
    cases x
    case DAT d =>
      have hw : writeCell N mem c d = some (mem.set c d) := by
        unfold writeCell
        rw [if_neg (by omega)]
      unfold datPass
      simp only [hw]
      obtain ⟨m1, hm1, hlen1, hout⟩ :=
        ih (c + 1) (mem.set c d) (by omega) (by simp [hl])
      refine ⟨m1, hm1, hlen1, ?_⟩
      intro i hi
      simp only [List.length_cons] at hi
      rw [hout i (by omega)]
      exact List.getElem?_set_ne (by omega)
    all_goals
      unfold datPass
      obtain ⟨m1, hm1, hlen1, hout⟩ := ih (c + 1) mem (by omega) hl
      refine ⟨m1, hm1, hlen1, ?_⟩
      intro i hi
      simp only [List.length_cons] at hi
      exact hout i (by omega)

/-- Running, non-halted state with stale values in registers and in the
memory cell beyond the program about to be compiled. -/
def c7vm : VirtualMachine := ⟨1, 7, [1, 1, 42], false, none, 5, 0⟩

/-- C7, counterexample to the claim as stated: compiling the one-instruction
program `HLT` into the non-halted `c7vm` (capacity 3) does not clear all
memory cells — the conditional `reset` does nothing while the VM is
running, so cell 2 still holds the stale value 42 where the claim requires
the cleared-and-reloaded image `[1, 0, 0]`. -/
theorem C7_clears_memory_counterexample :
    (compile 3 [Instruction.HLT] c7vm).map (Except.map VirtualMachine.memory) =
      some (.ok [1, 1, 42]) ∧
    [1, 1, 42] ≠ ([1, 0, 0] : List Int) :=
  ⟨rfl, by decide⟩

/-- C7, amended: on a program of at most `N` instructions, `compile` writes
the encoded program into cells `0..len-1` and clears the halted flag; all
remaining state — the memory cells beyond the program, the program counter,
accumulator, cycle count, and input buffer — is reset to its initial value
only if the VM was already halted before the call, and keeps its stale
value otherwise. -/
theorem C7_compile_partial_reset (N : Nat) (vm : VirtualMachine)
    (prog : List (Instruction Int))
    (hlen : vm.memory.length = N) (hsz : prog.length ≤ N) :
    compile N prog vm = some (.ok
      { program_counter := if vm.halted = true then 0 else vm.program_counter
        accumulator := if vm.halted = true then 0 else vm.accumulator
        memory := loadProgMem prog 0
          (if vm.halted = true then List.replicate N 0 else vm.memory)
        halted := false
        input_buffer := if vm.halted = true then none else vm.input_buffer
        cycles := if vm.halted = true then 0 else vm.cycles
        accessing := if vm.halted = true then 0 else vm.accessing }) := by
  cases hvm : vm.halted with
  | true =>
    have hres : reset N vm = ⟨0, 0, List.replicate N 0, true, none, 0, 0⟩ := by
      simp [reset, hvm]
    obtain ⟨m1, hd1, hlen1, hout1⟩ :=
      datPass_spec N prog 0 (List.replicate N (0 : Int))
        (by omega) (by simp)
    have hip := instrPass_eq N prog 0 m1 (by omega) hlen1
    have hmem : loadProgMem prog 0 m1 =
        loadProgMem prog 0 (List.replicate N (0 : Int)) := by
      apply List.ext_getElem?
      intro i
      rw [loadProgMem_getElem? prog 0 m1 (by omega) i,
          loadProgMem_getElem? prog 0 (List.replicate N 0) (by simp; omega) i]
      by_cases hc : 0 ≤ i ∧ i < 0 + prog.length
      · rw [if_pos hc, if_pos hc]
      · rw [if_neg hc, if_neg hc]
        exact hout1 i (by omega)
    unfold compile
    rw [if_neg (Nat.not_lt.mpr hsz)]
    simp only [hres, hd1, hip, hmem, hvm]
    rfl
  | false =>
    have hres : reset N vm = vm := by
      simp [reset, hvm]
    obtain ⟨m1, hd1, hlen1, hout1⟩ :=
      datPass_spec N prog 0 vm.memory (by omega) hlen
    have hip := instrPass_eq N prog 0 m1 (by omega) hlen1
    have hmem : loadProgMem prog 0 m1 = loadProgMem prog 0 vm.memory := by
      apply List.ext_getElem?
      intro i
      rw [loadProgMem_getElem? prog 0 m1 (by omega) i,
          loadProgMem_getElem? prog 0 vm.memory (by omega) i]
      by_cases hc : 0 ≤ i ∧ i < 0 + prog.length
      · rw [if_pos hc, if_pos hc]
      · rw [if_neg hc, if_neg hc]
        exact hout1 i (by omega)
    unfold compile
    rw [if_neg (Nat.not_lt.mpr hsz)]
    simp only [hres, hd1, hip, hmem, hvm]
    rfl

/-- Halted state with stale values everywhere, fully reset by a compile. -/
def c7wvm : VirtualMachine := ⟨3, 9, [5, 5], true, some 4, 8, 1⟩

/-- Witness for the amended C7: compiling `INP` into the halted `c7wvm`
(capacity 2) clears everything and loads the encoded program. -/
theorem C7_compile_partial_reset_witness :
    compile 2 [Instruction.INP] c7wvm =
      some (.ok ⟨0, 0, [901, 0], false, none, 0, 0⟩) :=
  C7_compile_partial_reset 2 c7wvm [Instruction.INP] rfl (by decide)
